import Mathlib

/-!
Verification of the `moltbot-memory-local` plugin (`LocalMemoryPlugin` in the
repository's TypeScript source).  The definitions below are a shallow
embedding of the source: pure helpers become Lean functions, the SQLite table
becomes a list of records in insertion (rowid) order, the LanceDB vector
store becomes a list of ids, timestamps become naturals (ISO strings sort
chronologically), JavaScript numbers used for `importance`, distances and
scores become rationals, and the embedding and vector-search results produced
by outside engines are passed in as an explicit outcome value.  `randomUUID()` and
`new Date()` are modelled as explicit parameters of `store`.
-/

namespace MoltMem

/-! ### Character classes (JavaScript regex `\w`, `\d`, `\s`) -/

/-- JavaScript regex `\w`: ASCII letters, digits and underscore. -/
def isWordChar (c : Char) : Bool :=
  ('a' ≤ c && c ≤ 'z') || ('A' ≤ c && c ≤ 'Z') || ('0' ≤ c && c ≤ '9') || c = '_'

/-- JavaScript regex `\d`: ASCII digits. -/
def isDigitChar (c : Char) : Bool := '0' ≤ c && c ≤ '9'

/-- JavaScript regex `\s`, restricted to the ASCII whitespace characters that
can occur in the strings this development evaluates. -/
def isSpaceChar (c : Char) : Bool :=
  c = ' ' || c = '\t' || c = '\n' || c = '\r' || c = '\x0b' || c = '\x0c'

/-- JavaScript `toLowerCase()` on the ASCII strings this system handles,
defined structurally so that the kernel can evaluate it. -/
def lowerStr (s : String) : String := ⟨s.data.map Char.toLower⟩

/-! ### Literal and word-boundary matching

The query router's regular expressions are translated pattern by pattern.
A JavaScript `test` call only asks whether a match exists somewhere in the
string, so each pattern becomes an existence check: a scanner tries the
pattern at every position that is preceded by a non-word character (the `\b`
word boundary), and the pattern body is a direct translation of the regex
body.  All router patterns start with a word character, so a `\b` before the
pattern is exactly "previous character is not a word character". -/

/-- Match a literal case-insensitively at the head of the input; return the
remaining input on success. -/
def matchLitCI : List Char → List Char → Option (List Char)
  | [], s => some s
  | _ :: _, [] => none
  | c :: cs, d :: ds => if c.toLower = d.toLower then matchLitCI cs ds else none

/-- A `\b` after a word character: the rest of the input is empty or starts
with a non-word character. -/
def boundaryAfter : List Char → Bool
  | [] => true
  | c :: _ => !isWordChar c

/-- `word\b` at the head of the input (case-insensitive). -/
def wordAtBoundary (w : List Char) (s : List Char) : Bool :=
  match matchLitCI w s with
  | some rest => boundaryAfter rest
  | none => false

/-- Try `f` at every position of the input that sits at a `\b` boundary
(previous character not a word character); `prevWord` says whether the
character just before the current position was a word character. -/
def scanAtBoundary (f : List Char → Bool) : Bool → List Char → Bool
  | _, [] => false
  | prevWord, c :: cs => (!prevWord && f (c :: cs)) || scanAtBoundary f (isWordChar c) cs

/-- `/\bword\b/i.test s` for a word made of word characters. -/
def containsWordCI (w : String) (s : String) : Bool :=
  scanAtBoundary (wordAtBoundary w.data) false s.data

/-- `w1\s+(alt1|alt2|...)\b` at the head of the input (case-insensitive). -/
def phraseAt (w1 : List Char) (alts : List (List Char)) (s : List Char) : Bool :=
  match matchLitCI w1 s with
  | some (c :: cs) =>
      isSpaceChar c && alts.any (fun w2 => wordAtBoundary w2 (cs.dropWhile isSpaceChar))
  | _ => false

/-- `/\bw1\s+(alt1|...)\b/i.test s`. -/
def containsPhrase (w1 : String) (alts : List String) (s : String) : Bool :=
  scanAtBoundary (phraseAt w1.data (alts.map String.data)) false s.data

/-- `w\s+\d` at the head of the input (case-insensitive, no trailing boundary). -/
def prepDigitAt (w : List Char) (s : List Char) : Bool :=
  match matchLitCI w s with
  | some (c :: cs) =>
      isSpaceChar c &&
        (match cs.dropWhile isSpaceChar with
         | d :: _ => isDigitChar d
         | [] => false)
  | _ => false

/-- Two digits followed by a `\b`. -/
def twoDigitsBoundary : List Char → Bool
  | d1 :: d2 :: rest => isDigitChar d1 && isDigitChar d2 && boundaryAfter rest
  | _ => false

/-- `[:\-]\d{2}\b` at the head of the input. -/
def sepTwoDigits : List Char → Bool
  | c :: rest => (c = ':' || c = '-') && twoDigitsBoundary rest
  | [] => false

/-- `\d{1,2}[:\-]\d{2}\b` at the head of the input (the time pattern body). -/
def timeAt : List Char → Bool
  | d1 :: rest =>
      isDigitChar d1 &&
        (sepTwoDigits rest ||
          (match rest with
           | d2 :: r2 => isDigitChar d2 && sepTwoDigits r2
           | [] => false))
  | [] => false

/-- Consume exactly `n` digits. -/
def digitsN : Nat → List Char → Option (List Char)
  | 0, s => some s
  | _ + 1, [] => none
  | n + 1, c :: cs => if isDigitChar c then digitsN n cs else none

/-- `\d{1,2}` followed by the continuation `k`. -/
def oneOrTwoDigits (k : List Char → Bool) : List Char → Bool
  | d1 :: rest =>
      isDigitChar d1 &&
        (k rest ||
          (match rest with
           | d2 :: r2 => isDigitChar d2 && k r2
           | [] => false))
  | [] => false

/-- `[\/\-]` then `\d{1,2}` then continuation. -/
def sepOneOrTwoDigits (k : List Char → Bool) : List Char → Bool
  | c :: rest => (c = '/' || c = '-') && oneOrTwoDigits k rest
  | [] => false

/-- `\d{4}[\/\-]\d{1,2}[\/\-]\d{1,2}\b` at the head of the input. -/
def dateAt (s : List Char) : Bool :=
  match digitsN 4 s with
  | some rest => sepOneOrTwoDigits (sepOneOrTwoDigits boundaryAfter) rest
  | none => false

/-- `id\s*[:=]` at the head of the input (case-insensitive). -/
def idTokenAt (s : List Char) : Bool :=
  match matchLitCI "id".data s with
  | some rest =>
      (match rest.dropWhile isSpaceChar with
       | c :: _ => c = ':' || c = '='
       | [] => false)
  | none => false

/-! ### The router's pattern sets (`TEMPORAL_PATTERNS`, `EXACT_PATTERNS`) -/

def weekdayWords : List String :=
  ["monday", "tuesday", "wednesday", "thursday", "friday", "saturday", "sunday"]

def monthWords : List String :=
  ["january", "february", "march", "april", "may", "june", "july", "august",
   "september", "october", "november", "december"]

/-- `/\b(yesterday|today|last\s+(week|month|year)|this\s+(week|month|year))\b/i` -/
def temporalRelative (q : String) : Bool :=
  containsWordCI "yesterday" q || containsWordCI "today" q ||
    containsPhrase "last" ["week", "month", "year"] q ||
    containsPhrase "this" ["week", "month", "year"] q

/-- `/\b(monday|...|sunday)\b/i` -/
def temporalWeekday (q : String) : Bool := weekdayWords.any (fun w => containsWordCI w q)

/-- `/\b\d{1,2}[:\-]\d{2}\b/` -/
def temporalTime (q : String) : Bool := scanAtBoundary timeAt false q.data

/-- `/\b\d{4}[\/\-]\d{1,2}[\/\-]\d{1,2}\b/` -/
def temporalDate (q : String) : Bool := scanAtBoundary dateAt false q.data

/-- `/\b(january|...|december)\b/i` -/
def temporalMonth (q : String) : Bool := monthWords.any (fun w => containsWordCI w q)

/-- `/\bwhen\s+did\b/i` -/
def temporalWhenDid (q : String) : Bool := containsPhrase "when" ["did"] q

/-- `/\b(at|on|during|before|after)\s+\d/i` -/
def temporalPrepDigit (q : String) : Bool :=
  ["at", "on", "during", "before", "after"].any
    (fun w => scanAtBoundary (prepDigitAt w.data) false q.data)

/-- Some pattern in `TEMPORAL_PATTERNS` matches. -/
def temporalMatch (q : String) : Bool :=
  temporalRelative q || temporalWeekday q || temporalTime q || temporalDate q ||
    temporalMonth q || temporalWhenDid q || temporalPrepDigit q

/-- `/^what\s+(is|are|was|were)\s+(my|the)\b/i` -/
def exactWhatPattern (q : String) : Bool :=
  match matchLitCI "what".data q.data with
  | some (c :: cs) =>
      isSpaceChar c &&
        (["is", "are", "was", "were"].any (fun v =>
          match matchLitCI v.data (cs.dropWhile isSpaceChar) with
          | some (c2 :: cs2) =>
              isSpaceChar c2 &&
                (["my", "the"].any (fun t =>
                  wordAtBoundary t.data (cs2.dropWhile isSpaceChar)))
          | _ => false))
  | _ => false

/-- `/\bexact(ly)?\b/i` -/
def exactWordPattern (q : String) : Bool :=
  containsWordCI "exact" q || containsWordCI "exactly" q

/-- `/\bid\s*[:=]/i` -/
def exactIdPattern (q : String) : Bool := scanAtBoundary idTokenAt false q.data

/-- Some pattern in `EXACT_PATTERNS` matches. -/
def exactMatch (q : String) : Bool :=
  exactWhatPattern q || exactWordPattern q || exactIdPattern q

/-- A query's resolved type: the two routing targets. -/
inductive QType where
  | semantic
  | structured
deriving DecidableEq, Repr

/-- `detectQueryType`: temporal patterns first, then exact-lookup patterns,
default `semantic`. -/
def detectQueryType (query : String) : QType :=
  if temporalMatch query then .structured
  else if exactMatch query then .structured
  else .semantic

/-! ### Generic list helpers used by the search code -/

/-- Does the second list start with the first one? -/
def listStartsWith [DecidableEq α] : List α → List α → Bool
  | [], _ => true
  | _ :: _, [] => false
  | a :: as, b :: bs => a = b && listStartsWith as bs

/-- Substring (contiguous sublist) containment, used for SQL
`text_lower LIKE ?` with a `%word%` argument. -/
def containsSub [DecidableEq α] (pat : List α) : List α → Bool
  | [] => listStartsWith pat []
  | b :: bs => listStartsWith pat (b :: bs) || containsSub pat bs

/-- Split a character list at whitespace.  JavaScript's
`split(/\s+/)` merges whitespace runs while this version keeps an empty
piece per separator, but every consumer filters the pieces by
`length > 1`, after which both splittings agree. -/
def splitWS : List Char → List (List Char)
  | [] => [[]]
  | c :: cs =>
      if isSpaceChar c then [] :: splitWS cs
      else
        match splitWS cs with
        | w :: ws => (c :: w) :: ws
        | [] => [[c]]

/-- SQLite `LIKE` pattern matching.  The source binds each search word
unescaped into `text_lower LIKE '%word%'`, so a `%` in the pattern matches
any (possibly empty) character sequence and a `_` matches exactly one
character — including when they came from the word itself.  Both operands
are produced by JavaScript `toLowerCase()` in the source (the `text_lower`
column and the query words), so SQLite ASCII case folding is the identity
and literal characters are compared directly. -/
def likeMatch : List Char → List Char → Bool
  | [], s => s.isEmpty
  | p :: ps, s =>
      if p = '%' then s.tails.any (fun t => likeMatch ps t)
      else
        match s with
        | [] => false
        | c :: s2 => if p = '_' then likeMatch ps s2 else (p = c) && likeMatch ps s2

/-! ### Data model -/

/-- A stored memory record (`Memory` in the source).  `metadata` is the
serialized payload treated as a black box (`JSON.stringify`/`JSON.parse` round-trip is
modelled as the identity on the serialized form). -/
structure Memory where
  id : String
  text : String
  category : String
  importance : ℚ
  createdAt : Nat
  updatedAt : Nat
  sessionKey : Option String
  metadata : Option String
  score : Option ℚ
deriving DecidableEq, Repr

/-- `MemoryStoreParams`. -/
structure MemoryStoreParams where
  text : String
  category : Option String
  importance : Option ℚ
  sessionKey : Option String
  metadata : Option String
deriving DecidableEq, Repr

/-- `mode` values accepted by recall. -/
inductive RMode where
  | auto
  | semantic
  | structured
deriving DecidableEq, Repr

/-- `MemoryRecallParams`. -/
structure MemoryRecallParams where
  query : String
  limit : Option Int
  category : Option String
  dateFrom : Option Nat
  dateTo : Option Nat
  filterNoise : Option Bool
  mode : Option RMode
deriving DecidableEq, Repr

/-- `MemoryForgetParams`. -/
structure MemoryForgetParams where
  memoryId : Option String
  query : Option String
deriving DecidableEq, Repr

/-- The configuration fields the core logic reads.  Noise patterns are
modelled as the predicates their regexes (with the `i` flag) denote. -/
structure PluginConfig where
  maxMemories : Nat
  defaultImportance : ℚ
  noisePatterns : List (String → Bool)
  enableEmbeddings : Bool

/-- Plugin state: the SQLite `memories` table in rowid (insertion) order and
the set of ids present in the LanceDB vector table. -/
structure DB where
  memories : List Memory
  vectors : List String

def emptyDB : DB := ⟨[], []⟩

/-- Outcome of the external embedding + vector-search calls inside
`semanticSearch`: the table may be absent, embedding or search may throw, or
search returns id/distance pairs. -/
inductive VectorOutcome where
  | noTable
  | embedFail
  | searchFail
  | hits (l : List (String × ℚ))
deriving DecidableEq, Repr

/-! ### Default configuration -/

/-- `^(ok|okay|yes|no|thanks|thank you|sure|got it|cool|nice|great)$` with
flag `i`: the whole string equals one of the filler words, case-insensitively. -/
def noiseFiller (s : String) : Bool :=
  ["ok", "okay", "yes", "no", "thanks", "thank you", "sure", "got it", "cool",
   "nice", "great"].contains (lowerStr s)

/-- `^\s*$` : the whole string is whitespace. -/
def noiseBlank (s : String) : Bool := s.data.all isSpaceChar

/-- `DEFAULT_CONFIG` restricted to the fields the logic reads. -/
def defaultConfig : PluginConfig :=
  { maxMemories := 10000
    defaultImportance := 7 / 10
    noisePatterns := [noiseFiller, noiseBlank]
    enableEmbeddings := true }

/-! ### Ordering relations used by the SQL `ORDER BY` clauses -/

/-- `ORDER BY importance DESC, created_at DESC`: `a` sorts no later than `b`. -/
def rankLe (a b : Memory) : Prop :=
  b.importance < a.importance ∨
    (a.importance = b.importance ∧ b.createdAt ≤ a.createdAt)

/-- `ORDER BY importance ASC, created_at ASC` (the pruning order): `a` sorts
no later than `b`. -/
def evictLe (a b : Memory) : Prop :=
  a.importance < b.importance ∨
    (a.importance = b.importance ∧ a.createdAt ≤ b.createdAt)

instance : DecidableRel rankLe := fun a b => by unfold rankLe; infer_instance

instance : DecidableRel evictLe := fun a b => by unfold evictLe; infer_instance

instance : IsTotal Memory rankLe where
  total a b := by
    unfold rankLe
    rcases lt_trichotomy a.importance b.importance with h | h | h
    · exact Or.inr (Or.inl h)
    · rcases le_total a.createdAt b.createdAt with h2 | h2
      · exact Or.inr (Or.inr ⟨h.symm, h2⟩)
      · exact Or.inl (Or.inr ⟨h, h2⟩)
    · exact Or.inl (Or.inl h)

instance : IsTrans Memory rankLe where
  trans a b c hab hbc := by
    unfold rankLe at *
    rcases hab with h1 | ⟨e1, t1⟩
    · rcases hbc with h2 | ⟨e2, t2⟩
      · exact Or.inl (h2.trans h1)
      · exact Or.inl (e2 ▸ h1)
    · rcases hbc with h2 | ⟨e2, t2⟩
      · exact Or.inl (e1 ▸ h2)
      · exact Or.inr ⟨e1.trans e2, t2.trans t1⟩

instance : IsTotal Memory evictLe where
  total a b := by
    unfold evictLe
    rcases lt_trichotomy a.importance b.importance with h | h | h
    · exact Or.inl (Or.inl h)
    · rcases le_total a.createdAt b.createdAt with h2 | h2
      · exact Or.inl (Or.inr ⟨h, h2⟩)
      · exact Or.inr (Or.inr ⟨h.symm, h2⟩)
    · exact Or.inr (Or.inl h)

instance : IsTrans Memory evictLe where
  trans a b c hab hbc := by
    unfold evictLe at *
    rcases hab with h1 | ⟨e1, t1⟩
    · rcases hbc with h2 | ⟨e2, t2⟩
      · exact Or.inl (h1.trans h2)
      · exact Or.inl (e2 ▸ h1)
    · rcases hbc with h2 | ⟨e2, t2⟩
      · exact Or.inl (e1 ▸ h2)
      · exact Or.inr ⟨e1.trans e2, t1.trans t2⟩

/-! ### JavaScript / SQL helpers -/

/-- `params.limit || 5`: absent and `0` are falsy. -/
def jsDefaultLimit : Option Int → Int
  | none => 5
  | some n => if n = 0 then 5 else n

/-- `Array.prototype.slice(0, e)` with a possibly negative end index. -/
def jsSlice (l : List α) (e : Int) : List α :=
  if 0 ≤ e then l.take e.toNat else l.take (l.length - (-e).toNat)

/-- SQLite `LIMIT n`: a negative limit means "no limit". -/
def sqlLimit (n : Int) (l : List α) : List α :=
  if n < 0 then l else l.take n.toNat

/-- JavaScript truthiness of an optional string (`undefined` and the empty
string are falsy). -/
def optStrTruthy : Option String → Bool
  | some s => s ≠ ""
  | none => false

/-! ### structuredSearch -/

/-- The stop-word list filtered out of structured-search queries. -/
def stopWords : List String :=
  ["what", "did", "when", "where", "how", "the", "is", "are", "was", "were",
   "my", "you", "last", "this"]

/-- `params.query.toLowerCase().split(/\s+/).filter(w => w.length > 1)`
followed by the stop-word filter. -/
def searchWords (q : String) : List (List Char) :=
  ((splitWS (lowerStr q).data).filter (fun w => 1 < w.length)).filter
    (fun w => !((stopWords.map String.data).contains w))

/-- The text condition pushed onto the SQL `WHERE` clause, if any: the
`LIKE` conditions are joined with `OR`, so a row matches when its
`text_lower` matches `'%' ++ word ++ '%'` under SQL `LIKE` for at least one
search word (the word is bound unescaped, so wildcards inside it are live).
The `text_lower` column always holds `text.toLowerCase()` (set at insert,
never updated). -/
def condText (q : String) : Option (Memory → Bool) :=
  if q = "" then none
  else
    let sw := searchWords q
    if sw.length > 0 then
      some (fun m => sw.any (fun w => likeMatch ('%' :: (w ++ ['%'])) (lowerStr m.text).data))
    else none

/-- All `WHERE` conditions of `structuredSearch`, in push order. -/
def whereConds (p : MemoryRecallParams) : List (Memory → Bool) :=
  (condText p.query).toList ++
    (if optStrTruthy p.category then
      [fun m => decide (m.category = p.category.getD "")] else []) ++
    (p.dateFrom.map (fun d => fun m => decide (d ≤ m.createdAt))).toList ++
    (p.dateTo.map (fun d => fun m => decide (m.createdAt ≤ d))).toList

/-- A row satisfies the whole `WHERE` clause. -/
def matchesWhere (p : MemoryRecallParams) (m : Memory) : Bool :=
  (whereConds p).all (fun c => c m)

/-- `structuredSearch`: `WHERE` filter, `ORDER BY importance DESC,
created_at DESC`, `LIMIT limit * 2`. -/
def structuredSearch (st : DB) (p : MemoryRecallParams) (limit : Int) : List Memory :=
  sqlLimit (limit * 2) (List.insertionSort rankLe (st.memories.filter (matchesWhere p)))

/-! ### semanticSearch -/

/-- Hydrate vector hits from the structured store: hits whose id is absent
are dropped, order is preserved, and `score = 1 - distance` is attached
(`r._distance || 0` is the distance itself in this model).  Ids are unique
in the table (SQL primary key), so first-match lookup equals the source's
id-keyed map. -/
def hydrate (st : DB) (hits : List (String × ℚ)) : List Memory :=
  hits.filterMap (fun h =>
    (st.memories.find? (fun m => decide (m.id = h.1))).map
      (fun m => { m with score := some (1 - h.2) }))

/-- `semanticSearch`: no table, an embedding error or a vector-search error
fall back to `structuredSearch`, as does an empty hit list; a non-empty hit
list is hydrated (with no fallback if hydration drops everything). -/
def semanticSearch (st : DB) (p : MemoryRecallParams) (limit : Int)
    (outcome : VectorOutcome) : List Memory :=
  match outcome with
  | .noTable => structuredSearch st p limit
  | .embedFail => structuredSearch st p limit
  | .searchFail => structuredSearch st p limit
  | .hits l => if l.length = 0 then structuredSearch st p limit else hydrate st l

/-! ### recall -/

/-- Recall with the query type already resolved: pick the backend, apply the
noise filter unless `filterNoise === false`, truncate with
`results.slice(0, limit)`. -/
def recallCore (cfg : PluginConfig) (st : DB) (p : MemoryRecallParams)
    (outcome : VectorOutcome) (queryType : QType) : List Memory :=
  let limit := jsDefaultLimit p.limit
  let results :=
    if queryType = QType.structured ∨ cfg.enableEmbeddings = false then
      structuredSearch st p limit
    else
      semanticSearch st p limit outcome
  let results2 :=
    if p.filterNoise = some false then results
    else results.filter (fun m => !cfg.noisePatterns.any (fun re => re m.text))
  jsSlice results2 limit

/-- `recall`: resolve the mode (`params.mode || 'auto'`), consult the router
only in `auto` mode, then run `recallCore`. -/
def memoryRecall (cfg : PluginConfig) (st : DB) (p : MemoryRecallParams)
    (outcome : VectorOutcome) : List Memory :=
  recallCore cfg st p outcome
    (match p.mode.getD .auto with
     | .auto => detectQueryType p.query
     | .semantic => .semantic
     | .structured => .structured)

/-! ### store and retention -/

/-- Construct the record stored by `store`: defaults applied with `||` for
`category` and `??` for `importance`, both timestamps set to `now`, no
clamping of any kind. -/
def mkMemory (cfg : PluginConfig) (p : MemoryStoreParams) (newId : String)
    (now : Nat) : Memory :=
  { id := newId
    text := p.text
    category := if optStrTruthy p.category then p.category.getD "" else "other"
    importance := p.importance.getD cfg.defaultImportance
    createdAt := now
    updatedAt := now
    sessionKey := p.sessionKey
    metadata := p.metadata
    score := none }

/-- `pruneOldMemories`: when the row count exceeds `maxMemories`, delete the
excess ids ordered by `importance ASC, created_at ASC` from the table and
(best-effort) from the vector store. -/
def pruneOldMemories (cfg : PluginConfig) (db : DB) : DB :=
  let total := db.memories.length
  if total > cfg.maxMemories then
    let toDelete := total - cfg.maxMemories
    let victims := (List.insertionSort evictLe db.memories).take toDelete
    let vids := victims.map (fun v => v.id)
    { memories := db.memories.filter (fun m => !vids.contains m.id)
      vectors := db.vectors.filter (fun v => !vids.contains v) }
  else db

/-- `store`: build the record, insert it into the structured store, run
retention, return the record.  The embedding write is asynchronous
(fire-and-forget) in the source, so the synchronous transition leaves the
vector store untouched. -/
def store (cfg : PluginConfig) (st : DB) (p : MemoryStoreParams)
    (newId : String) (now : Nat) : Memory × DB :=
  let m := mkMemory cfg p newId now
  (m, pruneOldMemories cfg { st with memories := st.memories ++ [m] })

/-- Sequentially store a list of inputs (params, fresh id, timestamp). -/
def storeSeq (cfg : PluginConfig) (st : DB)
    (inputs : List (MemoryStoreParams × String × Nat)) : DB :=
  inputs.foldl (fun d i => (store cfg d i.1 i.2.1 i.2.2).2) st

/-! ### forget -/

/-- `forget`: resolve the target ids (truthy `memoryId` wins, else a recall
by query with `limit: 100` and the noise filter off), then delete them from
both stores; with no targets nothing is touched and `deleted` is `0`. -/
def forget (cfg : PluginConfig) (st : DB) (p : MemoryForgetParams)
    (outcome : VectorOutcome) : Nat × DB :=
  let ids : List String :=
    if optStrTruthy p.memoryId then [p.memoryId.getD ""]
    else if optStrTruthy p.query then
      (memoryRecall cfg st
        { query := p.query.getD ""
          limit := some 100
          category := none
          dateFrom := none
          dateTo := none
          filterNoise := some false
          mode := none } outcome).map (fun m => m.id)
    else []
  if ids.length > 0 then
    (st.memories.countP (fun m => ids.contains m.id),
      { memories := st.memories.filter (fun m => !ids.contains m.id)
        vectors := st.vectors.filter (fun v => !ids.contains v) })
  else (0, st)

/-! ### Spec-side definitions for claim comparison -/

/-- Clamping to the unit interval, as the specification's record model
demands of `importance`. -/
def clamp01 (x : ℚ) : ℚ := max 0 (min 1 x)

/-- Modelled from the claim wording of C4 (the claim as stated): tokens are
the lowercased whitespace-split words with stop words removed (no length
filter), and a record's text must contain all of them; an empty token set
imposes no constraint. -/
def specAllTokenMatch (q t : String) : Bool :=
  let toks := (splitWS (lowerStr q).data).filter
    (fun w => !((stopWords.map String.data).contains w))
  toks.all (fun w => containsSub w (lowerStr t).data)

/-- Modelled from the amended wording of C4: tokens are the lowercased
whitespace-split words of length greater than one with stop words removed; a
record's text matches when it matches at least one token under SQL `LIKE`
with the token embedded unescaped between two `%` wildcards, and an empty
token set imposes no constraint. -/
def specAnyTokenMatch (q t : String) : Bool :=
  let toks := ((splitWS (lowerStr q).data).filter (fun w => 1 < w.length)).filter
    (fun w => !((stopWords.map String.data).contains w))
  toks.isEmpty || toks.any (fun w => likeMatch ('%' :: (w ++ ['%'])) (lowerStr t).data)

/-- Strictly higher retention rank: ranked above by importance descending,
then createdAt descending. -/
def strictAbove (x r : Memory) : Prop :=
  r.importance < x.importance ∨
    (x.importance = r.importance ∧ r.createdAt < x.createdAt)

instance : DecidableRel strictAbove := fun a b => by unfold strictAbove; infer_instance

/-- Map a resolved query type to the recall mode that forces it. -/
def modeOf : QType → RMode
  | .structured => .structured
  | .semantic => .semantic

/-- The recall parameters the round-trip property uses: a structured-mode
recall for a query with every other field absent. -/
def structuredQueryParams (q : String) : MemoryRecallParams :=
  ⟨q, none, none, none, none, none, some RMode.structured⟩

/-- The `memories`-table component of `pruneOldMemories`, as a function on
the row list alone. -/
def pruneMems (cfg : PluginConfig) (l : List Memory) : List Memory :=
  if l.length > cfg.maxMemories then
    l.filter (fun m =>
      !(((List.insertionSort evictLe l).take (l.length - cfg.maxMemories)).map
          (fun v => v.id)).contains m.id)
  else l

/-! ## Helper lemmas -/

theorem pruneOldMemories_memories (cfg : PluginConfig) (db : DB) :
    (pruneOldMemories cfg db).memories = pruneMems cfg db.memories := by
  unfold pruneOldMemories pruneMems
  by_cases h : db.memories.length > cfg.maxMemories <;> simp [h]

theorem jsSlice_length_le (l : List α) (e : Int) (h : 0 ≤ e) :
    (jsSlice l e).length ≤ e.toNat := by
  simp only [jsSlice, if_pos h]
  exact List.length_take_le e.toNat l

theorem prune_noop (cfg : PluginConfig) (db : DB)
    (h : db.memories.length ≤ cfg.maxMemories) : pruneOldMemories cfg db = db := by
  unfold pruneOldMemories
  rw [if_neg (by omega)]

theorem store_db_eq (cfg : PluginConfig) (st : DB) (p : MemoryStoreParams)
    (newId : String) (now : Nat) (hcap : st.memories.length < cfg.maxMemories) :
    (store cfg st p newId now).2 =
      ⟨st.memories ++ [mkMemory cfg p newId now], st.vectors⟩ := by
  unfold store
  apply prune_noop
  simp only [List.length_append, List.length_cons, List.length_nil]
  omega

theorem contains_singleton_eq (X a : String) :
    (([X] : List String).contains a) = decide (a = X) := by
  simp [List.contains, List.elem_eq_mem]

theorem forget_memoryId_eq (cfg : PluginConfig) (st : DB) (oc : VectorOutcome)
    (X : String) (hX : X ≠ "") :
    forget cfg st ⟨some X, none⟩ oc =
      (st.memories.countP (fun m => ([X] : List String).contains m.id),
        ⟨st.memories.filter (fun m => !([X] : List String).contains m.id),
          st.vectors.filter (fun v => !([X] : List String).contains v)⟩) := by
  unfold forget
  simp [optStrTruthy, hX]

/-! ## C10 -/

/-- C10: calling `forget` with neither `memoryId` nor `query` returns
`deleted = 0` and leaves both the structured store and the vector store
unchanged. -/
theorem forget_no_target_noop (cfg : PluginConfig) (st : DB) (oc : VectorOutcome) :
    forget cfg st ⟨none, none⟩ oc = (0, st) := by
  unfold forget
  simp [optStrTruthy]

/-! ## C7 -/

/-- C7: deleting an existing record by id twice never errors: the first call
reports one deletion, the second reports zero. -/
theorem forget_idempotent_delete (cfg : PluginConfig) (st : DB)
    (oc : VectorOutcome) (X : String) (hX : X ≠ "")
    (hcount : st.memories.countP (fun m => decide (m.id = X)) = 1) :
    (forget cfg st ⟨some X, none⟩ oc).1 = 1 ∧
      (forget cfg (forget cfg st ⟨some X, none⟩ oc).2 ⟨some X, none⟩ oc).1 = 0 := by
  have hpred : (fun m : Memory => ([X] : List String).contains m.id) =
      (fun m : Memory => decide (m.id = X)) :=
    funext fun m => contains_singleton_eq X m.id
  rw [forget_memoryId_eq cfg st oc X hX, forget_memoryId_eq cfg _ oc X hX]
  constructor
  · rw [hpred]
    exact hcount
  · rw [List.countP_filter]
    apply List.countP_eq_zero.mpr
    intro m _
    simp

/-- C7 witness at a concrete one-record store. -/
theorem forget_idempotent_delete_witness :
    (forget defaultConfig ⟨[⟨"x1", "hello", "other", 1, 0, 0, none, none, none⟩], ["x1"]⟩
        ⟨some "x1", none⟩ VectorOutcome.noTable).1 = 1 ∧
      (forget defaultConfig
          (forget defaultConfig
            ⟨[⟨"x1", "hello", "other", 1, 0, 0, none, none, none⟩], ["x1"]⟩
            ⟨some "x1", none⟩ VectorOutcome.noTable).2
          ⟨some "x1", none⟩ VectorOutcome.noTable).1 = 0 :=
  forget_idempotent_delete defaultConfig _ VectorOutcome.noTable "x1" (by decide) (by decide)

/-! ## C8 -/

/-- C8: with embeddings disabled, an `auto`-mode recall returns exactly the
result of a `structured`-mode recall with the same parameters, for every
query and store state. -/
theorem degraded_mode_equivalence (cfg : PluginConfig) (st : DB) (q : String)
    (lim : Option Int) (cat : Option String) (dF dT : Option Nat)
    (fN : Option Bool) (oc : VectorOutcome)
    (h : cfg.enableEmbeddings = false) :
    memoryRecall cfg st ⟨q, lim, cat, dF, dT, fN, some RMode.auto⟩ oc =
      memoryRecall cfg st ⟨q, lim, cat, dF, dT, fN, some RMode.structured⟩ oc := by
  unfold memoryRecall recallCore
  cases detectQueryType q <;> simp [h] <;> rfl

/-- C8 witness at a concrete disabled-embeddings configuration. -/
theorem degraded_mode_equivalence_witness :
    memoryRecall ⟨10000, 7/10, [], false⟩ emptyDB
        ⟨"dark mode ideas", none, none, none, none, none, some RMode.auto⟩
        VectorOutcome.noTable =
      memoryRecall ⟨10000, 7/10, [], false⟩ emptyDB
        ⟨"dark mode ideas", none, none, none, none, none, some RMode.structured⟩
        VectorOutcome.noTable :=
  degraded_mode_equivalence ⟨10000, 7/10, [], false⟩ emptyDB "dark mode ideas"
    none none none none none VectorOutcome.noTable rfl

/-! ## C5 -/

/-- C5: the router classifies the investor-meeting query as structured and
the similar-ideas query as semantic, and an explicitly supplied mode is used
verbatim, bypassing the classifier for every query string. -/
theorem router_determinism :
    detectQueryType "Meeting with investors on Thursday at 14:04" = QType.structured ∧
    detectQueryType "Similar ideas to dark mode preferences" = QType.semantic ∧
    ∀ (cfg : PluginConfig) (st : DB) (p : MemoryRecallParams)
      (oc : VectorOutcome) (t : QType), p.mode = some (modeOf t) →
        memoryRecall cfg st p oc = recallCore cfg st p oc t := by
  refine ⟨by decide, by decide, ?_⟩
  intro cfg st p oc t h
  unfold memoryRecall
  rw [h]
  cases t <;> rfl

/-- C5 witness: the mode override applied at a concrete call. -/
theorem router_determinism_witness :
    memoryRecall defaultConfig emptyDB
        ⟨"Similar ideas to dark mode preferences", none, none, none, none, none,
          some RMode.structured⟩ VectorOutcome.noTable =
      recallCore defaultConfig emptyDB
        ⟨"Similar ideas to dark mode preferences", none, none, none, none, none,
          some RMode.structured⟩ VectorOutcome.noTable QType.structured :=
  router_determinism.2.2 defaultConfig emptyDB _ VectorOutcome.noTable
    QType.structured rfl

/-! ## C2 -/

/-- C2 counterexample: storing an input whose text is empty writes a row
into the structured store instead of raising a validation error, so the
claimed rejection-before-write does not happen. -/
theorem store_empty_text_cex :
    ((store defaultConfig emptyDB ⟨"", none, none, none, none⟩ "m1" 0).2).memories.length = 1 := by
  decide

/-- C2 amended: `store` performs no input validation.  An input whose text
is empty after trimming is inserted into the structured store unchanged and
no error is raised; the vector store is untouched by the synchronous part of
`store` (the embedding write is asynchronous). -/
theorem store_skips_validation (cfg : PluginConfig) (st : DB)
    (p : MemoryStoreParams) (newId : String) (now : Nat)
    (hempty : p.text.data.all isSpaceChar = true)
    (hcap : st.memories.length < cfg.maxMemories) :
    (store cfg st p newId now).2.memories = st.memories ++ [mkMemory cfg p newId now] ∧
      (store cfg st p newId now).2.vectors = st.vectors := by
  rw [store_db_eq cfg st p newId now hcap]
  exact ⟨rfl, rfl⟩

/-- C2 witness at the empty store and empty text. -/
theorem store_skips_validation_witness :
    (store defaultConfig emptyDB ⟨"", none, none, none, none⟩ "m1" 0).2.memories =
        emptyDB.memories ++ [mkMemory defaultConfig ⟨"", none, none, none, none⟩ "m1" 0] ∧
      (store defaultConfig emptyDB ⟨"", none, none, none, none⟩ "m1" 0).2.vectors =
        emptyDB.vectors :=
  store_skips_validation defaultConfig emptyDB ⟨"", none, none, none, none⟩ "m1" 0
    (by decide) (by decide)

/-! ## C6 -/

/-- C6 counterexample: a recall with `limit: 0` is not clamped to one
result; the JavaScript `params.limit || 5` default kicks in and two records
are returned. -/
theorem limit_zero_cex :
    (memoryRecall defaultConfig
        ⟨[⟨"a1", "alpha one", "other", 1, 0, 0, none, none, none⟩,
          ⟨"b1", "beta two", "other", 1, 1, 1, none, none, none⟩], []⟩
        ⟨"", some 0, none, none, none, none, some RMode.structured⟩
        VectorOutcome.noTable).length = 2 := by
  decide

/-- C6 amended: an absent limit and a limit of `0` both fall back to the
default `5` (JavaScript falsiness) instead of `0` being clamped to `1`, and
recall then returns at most five results; a positive limit `L` yields at
most `L` results.  Negative limits are not clamped. -/
theorem limit_default_behavior (cfg : PluginConfig) (st : DB)
    (p : MemoryRecallParams) (oc : VectorOutcome) :
    (p.limit = none ∨ p.limit = some 0 → (memoryRecall cfg st p oc).length ≤ 5) ∧
      (∀ L : Int, p.limit = some L → 0 < L →
        (memoryRecall cfg st p oc).length ≤ L.toNat) := by
  have hcore : ∀ t, (recallCore cfg st p oc t).length ≤ (jsDefaultLimit p.limit).toNat → True := fun _ _ => trivial
  constructor
  · intro h
    have hlim : jsDefaultLimit p.limit = 5 := by
      rcases h with h | h <;> simp [jsDefaultLimit, h]
    have := jsSlice_length_le
      (α := Memory) (e := jsDefaultLimit p.limit)
    unfold memoryRecall recallCore
    rw [hlim] at *
    exact le_trans (jsSlice_length_le _ 5 (by norm_num)) (by norm_num)
  · intro L hL hpos
    have hlim : jsDefaultLimit p.limit = L := by
      simp [jsDefaultLimit, hL]
      intro h
      omega
    unfold memoryRecall recallCore
    rw [hlim]
    exact jsSlice_length_le _ L (le_of_lt hpos)

/-- C6 witness: the `limit: 0` branch of the amended statement at a concrete
call. -/
theorem limit_default_behavior_witness :
    (memoryRecall defaultConfig emptyDB
        ⟨"hello", some 0, none, none, none, none, some RMode.structured⟩
        VectorOutcome.noTable).length ≤ 5 :=
  (limit_default_behavior defaultConfig emptyDB
      ⟨"hello", some 0, none, none, none, none, some RMode.structured⟩
      VectorOutcome.noTable).1 (Or.inr rfl)

/-! ## C4 -/

/-- C4 counterexample: the structured-search text filter selects records the
claimed rule excludes, in two ways.  First, the `LIKE` conditions are joined
with `OR`, so the query `alpha beta` selects a record containing only
`alpha`.  Second, the search word is bound unescaped into `LIKE`, so the
query `50% off` selects the text `a 50 b`, which contains no token at all
literally (the `%` in `50%` acts as a wildcard). -/
theorem textFilter_all_tokens_cex :
    ((structuredSearch ⟨[⟨"m1", "alpha xyz", "other", 1, 0, 0, none, none, none⟩], []⟩
          ⟨"alpha beta", none, none, none, none, none, some RMode.structured⟩ 5).map
        (fun m => m.id) = ["m1"] ∧
      specAllTokenMatch "alpha beta" "alpha xyz" = false) ∧
      ((structuredSearch ⟨[⟨"m2", "a 50 b", "other", 1, 0, 0, none, none, none⟩], []⟩
          ⟨"50% off", none, none, none, none, none, some RMode.structured⟩ 5).map
        (fun m => m.id) = ["m2"] ∧
      specAllTokenMatch "50% off" "a 50 b" = false) := by
  refine ⟨⟨?_, ?_⟩, ?_, ?_⟩
  · decide
  · decide
  · decide
  · decide

/-- C4 amended: for a query-only recall parameter set, the structured-search
`WHERE` clause accepts exactly the records whose lowercased text matches at
least one surviving token under SQL `LIKE` with the token embedded
unescaped between two `%` wildcards (so `%` and `_` inside a token are
live), where the tokens are the lowercased whitespace-split words of length
greater than one with stop words removed; an empty token set imposes no
text constraint rather than excluding everything. -/
theorem specAnyTokenMatch_eq_searchWords (q t : String) :
    specAnyTokenMatch q t =
      ((searchWords q).isEmpty ||
        (searchWords q).any
          (fun w => likeMatch ('%' :: (w ++ ['%'])) (lowerStr t).data)) := rfl

theorem matchesWhere_queryOnly (q : String) (m : Memory) :
    matchesWhere ⟨q, none, none, none, none, none, none⟩ m =
      ((condText q).toList).all (fun c => c m) := by
  unfold matchesWhere whereConds
  simp [optStrTruthy]

theorem textFilter_any_token (q : String) (m : Memory) :
    matchesWhere ⟨q, none, none, none, none, none, none⟩ m = specAnyTokenMatch q m.text := by
  rw [matchesWhere_queryOnly, specAnyTokenMatch_eq_searchWords]
  by_cases hq : q = ""
  · have hsw : searchWords q = [] := by
      subst hq
      rfl
    have hct : condText q = none := by
      unfold condText
      rw [if_pos hq]
    rw [hct, hsw]
    rfl
  · by_cases hsw : searchWords q = []
    · have hct : condText q = none := by
        unfold condText
        rw [if_neg hq]
        simp [hsw]
      rw [hct, hsw]
      rfl
    · have hct : condText q =
          some (fun mm => (searchWords q).any
            (fun w => likeMatch ('%' :: (w ++ ['%'])) (lowerStr mm.text).data)) := by
        unfold condText
        rw [if_neg hq]
        have hpos : (searchWords q).length > 0 := by
          cases h : searchWords q with
          | nil => exact absurd h hsw
          | cons a as => simp [h]
        simp only [searchWords] at hpos ⊢
        rw [if_pos hpos]
      rw [hct]
      have hempty : (searchWords q).isEmpty = false := by
        cases h : searchWords q with
        | nil => exact absurd h hsw
        | cons a as => rfl
      rw [hempty]
      simp

/-! ## C9 -/

/-- C9 counterexample: a vector search that returns one hit whose id is
absent from the structured store makes `semanticSearch` return the empty
list even though the structured fallback would have returned a record, so
zero hydrated results do not trigger the claimed fallback. -/
theorem semantic_zero_hydration_cex :
    semanticSearch ⟨[⟨"a", "hello world", "other", 1, 0, 0, none, none, none⟩], []⟩
        ⟨"hello", none, none, none, none, none, some RMode.semantic⟩ 5
        (VectorOutcome.hits [("b", 0)]) = [] ∧
      structuredSearch ⟨[⟨"a", "hello world", "other", 1, 0, 0, none, none, none⟩], []⟩
        ⟨"hello", none, none, none, none, none, some RMode.semantic⟩ 5 ≠ [] := by
  constructor
  · decide
  · decide

/-- C9 amended: the semantic path falls back to the structured search when
the vector table is missing, the embedding call fails, the vector search
fails, or the vector search returns no hits; but when every returned hit
fails hydration (its id is no longer in the structured store) the result is
the empty list, with no fallback. -/
theorem semantic_fallback_amended (st : DB) (p : MemoryRecallParams)
    (limit : Int) (l : List (String × ℚ)) :
    semanticSearch st p limit VectorOutcome.noTable = structuredSearch st p limit ∧
      semanticSearch st p limit VectorOutcome.embedFail = structuredSearch st p limit ∧
      semanticSearch st p limit VectorOutcome.searchFail = structuredSearch st p limit ∧
      semanticSearch st p limit (VectorOutcome.hits []) = structuredSearch st p limit ∧
      (l ≠ [] → (∀ h ∈ l, ∀ m ∈ st.memories, m.id ≠ h.1) →
        semanticSearch st p limit (VectorOutcome.hits l) = []) := by
  refine ⟨rfl, rfl, rfl, rfl, ?_⟩
  intro hne hmiss
  show (if l.length = 0 then structuredSearch st p limit else hydrate st l) = []
  rw [if_neg (by simpa using hne)]
  unfold hydrate
  apply List.filterMap_eq_nil.mpr
  intro h hh
  have : st.memories.find? (fun m => decide (m.id = h.1)) = none := by
    apply List.find?_eq_none.mpr
    intro m hm
    simpa using hmiss h hh m hm
  simp [this]

/-- C9 witness: the no-fallback case at a concrete store and hit list. -/
theorem semantic_fallback_amended_witness :
    semanticSearch ⟨[⟨"a2", "some note", "other", 1, 0, 0, none, none, none⟩], []⟩
        ⟨"note", none, none, none, none, none, some RMode.semantic⟩ 5
        (VectorOutcome.hits [("zz", 2)]) = [] :=
  (semantic_fallback_amended
      ⟨[⟨"a2", "some note", "other", 1, 0, 0, none, none, none⟩], []⟩
      ⟨"note", none, none, none, none, none, some RMode.semantic⟩ 5
      [("zz", 2)]).2.2.2.2 (by decide) (by decide)

/-! ## C1 -/

theorem listStartsWith_append [DecidableEq α] (w t : List α) :
    listStartsWith w (w ++ t) = true := by
  induction w with
  | nil => rfl
  | cons a as ih => simp [listStartsWith, ih]

theorem containsSub_of_startsWith [DecidableEq α] (pat s : List α)
    (h : listStartsWith pat s = true) : containsSub pat s = true := by
  cases s with
  | nil => exact h
  | cons b bs =>
      unfold containsSub
      rw [h]
      rfl

theorem containsSub_cons [DecidableEq α] (pat : List α) (c : α) (s : List α)
    (h : containsSub pat s = true) : containsSub pat (c :: s) = true := by
  unfold containsSub
  rw [h]
  simp

theorem splitWS_spec (l : List Char) :
    ∃ w ws, splitWS l = w :: ws ∧ (∃ t, l = w ++ t) ∧
      ∀ v ∈ ws, containsSub v l = true := by
  induction l with
  | nil => exact ⟨[], [], rfl, ⟨[], rfl⟩, by simp⟩
  | cons c cs ih =>
      obtain ⟨w, ws, hsplit, ⟨t, ht⟩, hws⟩ := ih
      by_cases hc : isSpaceChar c = true
      · refine ⟨[], splitWS cs, by simp [splitWS, hc], ⟨c :: cs, rfl⟩, ?_⟩
        intro v hv
        have hv2 : v ∈ w :: ws := by
          rw [← hsplit]
          exact hv
        rcases List.mem_cons.mp hv2 with hveq | hvmem
        · rw [hveq, ht]
          exact containsSub_cons _ _ _
            (containsSub_of_startsWith _ _ (listStartsWith_append w t))
        · exact containsSub_cons _ _ _ (hws v hvmem)
      · refine ⟨c :: w, ws, ?_, ⟨t, ?_⟩, ?_⟩
        · simp only [splitWS, hc, if_false]
          rw [hsplit]
          simp
        · rw [ht]
          rfl
        · intro v hv
          exact containsSub_cons _ _ _ (hws v hv)

theorem splitWS_containsSub (l : List Char) (v : List Char)
    (hv : v ∈ splitWS l) : containsSub v l = true := by
  obtain ⟨w, ws, hsplit, ⟨t, ht⟩, hws⟩ := splitWS_spec l
  rw [hsplit] at hv
  rcases List.mem_cons.mp hv with hveq | hvmem
  · rw [hveq, ht]
    exact containsSub_of_startsWith _ _ (listStartsWith_append w t)
  · exact hws v hvmem

theorem searchWords_containsSub (q : String) (w : List Char)
    (hw : w ∈ searchWords q) : containsSub w (lowerStr q).data = true := by
  unfold searchWords at hw
  exact splitWS_containsSub _ _ (List.mem_of_mem_filter (List.mem_of_mem_filter hw))

theorem listStartsWith_exists [DecidableEq α] :
    ∀ (w t : List α), listStartsWith w t = true → ∃ rest, t = w ++ rest
  | [], t, _ => ⟨t, rfl⟩
  | _ :: _, [], h => by simp [listStartsWith] at h
  | a :: as, b :: bs, h => by
      unfold listStartsWith at h
      simp only [Bool.and_eq_true, decide_eq_true_eq] at h
      obtain ⟨rest, hr⟩ := listStartsWith_exists as bs h.2
      exact ⟨rest, by simp [hr, h.1]⟩

theorem containsSub_suffix [DecidableEq α] :
    ∀ (w s : List α), containsSub w s = true →
      ∃ t, t <:+ s ∧ listStartsWith w t = true
  | w, [], h => ⟨[], List.nil_suffix, h⟩
  | w, b :: bs, h => by
      unfold containsSub at h
      simp only [Bool.or_eq_true] at h
      rcases h with h | h
      · exact ⟨b :: bs, List.suffix_refl _, h⟩
      · obtain ⟨t, ht, hs⟩ := containsSub_suffix w bs h
        exact ⟨t, ht.trans (List.suffix_cons b bs), hs⟩

theorem likeMatch_append_pct :
    ∀ (w rest : List Char), likeMatch (w ++ ['%']) (w ++ rest) = true
  | [], rest => by
      show likeMatch ['%'] rest = true
      simp only [likeMatch]
      rw [if_pos trivial]
      apply List.any_eq_true.mpr
      exact ⟨[], (List.mem_tails _ _).mpr List.nil_suffix, rfl⟩
  | c :: w, rest => by
      simp only [List.cons_append, likeMatch]
      by_cases hc : c = '%'
      · rw [if_pos hc]
        apply List.any_eq_true.mpr
        exact ⟨w ++ rest, (List.mem_tails _ _).mpr (List.suffix_cons c (w ++ rest)),
          likeMatch_append_pct w rest⟩
      · rw [if_neg hc]
        by_cases hc2 : c = '_'
        · simp [hc2, likeMatch_append_pct w rest]
        · simp [hc2, likeMatch_append_pct w rest]

theorem likeMatch_pct_of_containsSub (w s : List Char)
    (h : containsSub w s = true) :
    likeMatch ('%' :: (w ++ ['%'])) s = true := by
  obtain ⟨t, hts, hst⟩ := containsSub_suffix w s h
  obtain ⟨rest, hrest⟩ := listStartsWith_exists w t hst
  simp only [likeMatch]
  rw [if_pos trivial]
  apply List.any_eq_true.mpr
  refine ⟨t, (List.mem_tails _ _).mpr hts, ?_⟩
  rw [hrest]
  exact likeMatch_append_pct w rest

theorem searchWords_likeMatch (q : String) (w : List Char)
    (hw : w ∈ searchWords q) :
    likeMatch ('%' :: (w ++ ['%'])) (lowerStr q).data = true :=
  likeMatch_pct_of_containsSub w _ (searchWords_containsSub q w hw)

theorem condText_of_no_words (q : String) (h : searchWords q = []) :
    condText q = none := by
  unfold condText
  by_cases hq : q = ""
  · rw [if_pos hq]
  · rw [if_neg hq]
    simp [h]

theorem condText_of_words (q : String) (hq : q ≠ "") (h : searchWords q ≠ []) :
    condText q =
      some (fun mm => (searchWords q).any
        (fun w => likeMatch ('%' :: (w ++ ['%'])) (lowerStr mm.text).data)) := by
  unfold condText
  rw [if_neg hq]
  have hpos : (searchWords q).length > 0 := by
    cases hh : searchWords q with
    | nil => exact absurd hh h
    | cons a as => simp [hh]
  simp only [searchWords] at hpos ⊢
  rw [if_pos hpos]

theorem matchesWhere_no_filters (q : String) (lim : Option Int)
    (fN : Option Bool) (md : Option RMode) (m : Memory) :
    matchesWhere ⟨q, lim, none, none, none, fN, md⟩ m =
      ((condText q).toList).all (fun c => c m) := by
  unfold matchesWhere whereConds
  simp [optStrTruthy]

theorem matchesWhere_own_text (q : String) (m : Memory) (h : m.text = q) :
    matchesWhere (structuredQueryParams q) m = true := by
  rw [show structuredQueryParams q =
      ⟨q, none, none, none, none, none, some RMode.structured⟩ from rfl]
  rw [matchesWhere_no_filters]
  by_cases hsw : searchWords q = []
  · rw [condText_of_no_words q hsw]
    rfl
  · have hq : q ≠ "" := by
      intro hq
      subst hq
      exact hsw rfl
    rw [condText_of_words q hq hsw]
    simp only [Option.toList_some, List.all_cons, List.all_nil, Bool.and_true]
    apply List.any_eq_true.mpr
    cases hh : searchWords q with
    | nil => exact absurd hh hsw
    | cons w ws =>
        have hwmem : w ∈ searchWords q := by
          rw [hh]
          exact List.mem_cons_self w ws
        refine ⟨w, List.mem_cons_self w ws, ?_⟩
        rw [h]
        exact searchWords_likeMatch q w hwmem

theorem rankLe_refl (m : Memory) : rankLe m m := Or.inr ⟨rfl, le_refl _⟩

theorem sorted_index_lt (L : List Memory) (m : Memory) (k : Nat) (hm : m ∈ L)
    (hk : L.countP (fun x => decide (rankLe x m)) ≤ k) :
    ∃ A B, List.insertionSort rankLe L = A ++ m :: B ∧ A.length < k := by
  have hmem : m ∈ List.insertionSort rankLe L := by
    rw [List.mem_insertionSort]
    exact hm
  obtain ⟨A, B, hAB⟩ := List.append_of_mem hmem
  refine ⟨A, B, hAB, ?_⟩
  have hsorted : List.Pairwise rankLe (A ++ m :: B) := by
    rw [← hAB]
    exact List.sorted_insertionSort rankLe L
  have hrel : ∀ a ∈ A, rankLe a m :=
    fun a ha => (List.pairwise_append.mp hsorted).2.2 a ha m (List.mem_cons_self m B)
  have hcount : A.length + 1 ≤
      (A ++ m :: B).countP (fun x => decide (rankLe x m)) := by
    rw [List.countP_append, List.countP_cons]
    have hA : A.countP (fun x => decide (rankLe x m)) = A.length :=
      List.countP_eq_length.mpr (fun a ha => by simpa using hrel a ha)
    have hM : decide (rankLe m m) = true := by simpa using rankLe_refl m
    rw [hA, hM]
    simp
  have hperm : (A ++ m :: B).countP (fun x => decide (rankLe x m)) =
      L.countP (fun x => decide (rankLe x m)) := by
    rw [← hAB]
    exact (List.perm_insertionSort rankLe L).countP_eq _
  omega

theorem take_middle (A : List α) (m : α) (B : List α) (k : Nat)
    (h : A.length < k) :
    (A ++ m :: B).take k = A ++ m :: B.take (k - A.length - 1) := by
  rw [List.take_append_eq_append_take, List.take_all_of_le (le_of_lt h)]
  congr 1
  have hk : k - A.length = (k - A.length - 1) + 1 := by omega
  rw [hk]
  rfl

theorem mem_take_middle (A : List α) (m : α) (B : List α) (k : Nat)
    (h : A.length < k) : m ∈ (A ++ m :: B).take k := by
  rw [take_middle A m B k h]
  exact List.mem_append_right A (List.mem_cons_self m _)

/-- C1 counterexample: the text `"ok"` is valid store input (non-empty), but
an immediately following structured recall of the same text returns the
empty list (the default noise filter drops the record), so no record with
the stored id is included. -/
theorem roundTrip_noise_cex :
    (store defaultConfig emptyDB ⟨"ok", none, none, none, none⟩ "m1" 0).2.memories.map
        (fun m => m.id) = ["m1"] ∧
      memoryRecall defaultConfig
        (store defaultConfig emptyDB ⟨"ok", none, none, none, none⟩ "m1" 0).2
        (structuredQueryParams "ok") VectorOutcome.noTable = [] := by
  constructor
  · decide
  · decide

/-- C1 amended: a round trip holds when the stored text matches no
configured noise pattern, the store is below capacity (so retention does not
run), the stored importance is already in the unit interval (the code never
clamps) and fewer than the five default-limit candidates among the
previously stored records satisfy the query's `WHERE` clause — the `OR` of
unescaped `LIKE` conditions — and rank at least as high; the recalled
record then carries the stored id, text, category, importance (on which
clamping is the identity) and metadata. -/
theorem roundTrip_structured_amended (cfg : PluginConfig) (st : DB)
    (p : MemoryStoreParams) (newId : String) (now : Nat) (oc : VectorOutcome)
    (hvalid : p.text.data.all isSpaceChar = false)
    (himp : 0 ≤ p.importance.getD cfg.defaultImportance ∧
      p.importance.getD cfg.defaultImportance ≤ 1)
    (hnoise : ∀ pat ∈ cfg.noisePatterns, pat p.text = false)
    (hcap : st.memories.length < cfg.maxMemories)
    (hrank : (st.memories.filter
        (matchesWhere (structuredQueryParams p.text))).countP
        (fun x => decide (rankLe x (mkMemory cfg p newId now))) < 5) :
    ∃ r ∈ memoryRecall cfg (store cfg st p newId now).2
        (structuredQueryParams p.text) oc,
      r.id = newId ∧ r.text = p.text ∧
        r.category = (mkMemory cfg p newId now).category ∧
        r.importance = clamp01 (p.importance.getD cfg.defaultImportance) ∧
        r.metadata = p.metadata := by
  set m := mkMemory cfg p newId now with hm
  have hclamp : clamp01 (p.importance.getD cfg.defaultImportance) =
      p.importance.getD cfg.defaultImportance := by
    unfold clamp01
    rw [min_eq_right himp.2, max_eq_right himp.1]
  refine ⟨m, ?_, rfl, rfl, rfl, by rw [hclamp]; rfl, rfl⟩
  rw [store_db_eq cfg st p newId now hcap]
  have hrecall : memoryRecall cfg ⟨st.memories ++ [m], st.vectors⟩
      (structuredQueryParams p.text) oc =
      jsSlice ((structuredSearch ⟨st.memories ++ [m], st.vectors⟩
          (structuredQueryParams p.text) 5).filter
        (fun x => !cfg.noisePatterns.any (fun re => re x.text))) 5 := rfl
  rw [hrecall]
  have hfilter : (st.memories ++ [m]).filter
      (matchesWhere (structuredQueryParams p.text)) =
      st.memories.filter (matchesWhere (structuredQueryParams p.text)) ++ [m] := by
    rw [List.filter_append]
    congr 1
    simp [matchesWhere_own_text p.text m rfl]
  have hcountL : ((st.memories ++ [m]).filter
      (matchesWhere (structuredQueryParams p.text))).countP
      (fun x => decide (rankLe x m)) ≤ 5 := by
    rw [hfilter, List.countP_append]
    have : ([m] : List Memory).countP (fun x => decide (rankLe x m)) ≤ 1 := by
      simp only [List.countP_cons, List.countP_nil]
      split <;> simp
    omega
  have hmemL : m ∈ (st.memories ++ [m]).filter
      (matchesWhere (structuredQueryParams p.text)) := by
    rw [hfilter]
    exact List.mem_append_right _ (List.mem_cons_self m [])
  obtain ⟨A, B, hAB, hAlen⟩ := sorted_index_lt _ m 5 hmemL hcountL
  have hss : structuredSearch ⟨st.memories ++ [m], st.vectors⟩
      (structuredQueryParams p.text) 5 =
      A ++ m :: B.take (10 - A.length - 1) := by
    unfold structuredSearch
    show (List.insertionSort rankLe ((st.memories ++ [m]).filter
        (matchesWhere (structuredQueryParams p.text)))).take 10 = _
    rw [hAB]
    exact take_middle A m B 10 (by omega)
  rw [hss]
  have hpass : cfg.noisePatterns.any (fun re => re m.text) = false := by
    apply List.any_eq_false.mpr
    intro pat hpat
    rw [show m.text = p.text from rfl, hnoise pat hpat]
    simp
  have hfilter2 : (A ++ m :: B.take (10 - A.length - 1)).filter
      (fun x => !cfg.noisePatterns.any (fun re => re x.text)) =
      A.filter (fun x => !cfg.noisePatterns.any (fun re => re x.text)) ++
        m :: (B.take (10 - A.length - 1)).filter
          (fun x => !cfg.noisePatterns.any (fun re => re x.text)) := by
    rw [List.filter_append, List.filter_cons]
    rw [show (!cfg.noisePatterns.any (fun re => re m.text)) = true by rw [hpass]; rfl]
    simp
  rw [hfilter2]
  show m ∈ (A.filter (fun x => !cfg.noisePatterns.any (fun re => re x.text)) ++
      m :: (B.take (10 - A.length - 1)).filter
        (fun x => !cfg.noisePatterns.any (fun re => re x.text))).take 5
  apply mem_take_middle
  calc (A.filter (fun x => !cfg.noisePatterns.any (fun re => re x.text))).length
      ≤ A.length := List.length_filter_le _ A
    _ < 5 := hAlen

/-- C1 witness for the amended round trip at a concrete store. -/
theorem roundTrip_structured_amended_witness :
    ∃ r ∈ memoryRecall defaultConfig
        (store defaultConfig emptyDB ⟨"hello world", none, some 1, none, none⟩ "w1" 0).2
        (structuredQueryParams "hello world") VectorOutcome.noTable,
      r.id = "w1" ∧ r.text = "hello world" ∧
        r.category = (mkMemory defaultConfig
          ⟨"hello world", none, some 1, none, none⟩ "w1" 0).category ∧
        r.importance = clamp01 ((some (1 : ℚ)).getD defaultConfig.defaultImportance) ∧
        r.metadata = none :=
  roundTrip_structured_amended defaultConfig emptyDB
    ⟨"hello world", none, some 1, none, none⟩ "w1" 0 VectorOutcome.noTable
    (by decide) ⟨by decide, by decide⟩
    (by
      intro pat hpat
      simp only [defaultConfig, List.mem_cons, List.not_mem_nil, or_false] at hpat
      rcases hpat with h | h <;> subst h <;> decide)
    (by decide) (by decide)

/-! ## C3 -/

theorem strictAbove_irrefl (m : Memory) : ¬ strictAbove m m := by
  unfold strictAbove
  rintro (h | ⟨_, h⟩) <;> exact lt_irrefl _ h

theorem strictAbove_asymm {x y : Memory} (h : strictAbove x y) :
    ¬ strictAbove y x := by
  unfold strictAbove at *
  rintro (h2 | ⟨e2, t2⟩)
  · rcases h with h1 | ⟨e1, t1⟩
    · exact lt_asymm h1 h2
    · exact absurd e1 (ne_of_lt h2)
  · rcases h with h1 | ⟨e1, t1⟩
    · exact absurd e2 (ne_of_lt h1)
    · exact lt_asymm t1 t2

theorem evictLe_strictAbove {h y : Memory} (hle : evictLe h y)
    (hne : h.createdAt ≠ y.createdAt) : strictAbove y h := by
  unfold evictLe at hle
  unfold strictAbove
  rcases hle with h1 | ⟨e1, t1⟩
  · exact Or.inl h1
  · exact Or.inr ⟨e1.symm, lt_of_le_of_ne t1 hne⟩

theorem store_memories_eq (cfg : PluginConfig) (d : DB) (p : MemoryStoreParams)
    (nid : String) (now : Nat) :
    (store cfg d p nid now).2.memories =
      pruneMems cfg (d.memories ++ [mkMemory cfg p nid now]) := by
  unfold store
  exact pruneOldMemories_memories cfg _

theorem storeSeq_memories (cfg : PluginConfig) :
    ∀ (inputs : List (MemoryStoreParams × String × Nat)) (st : DB),
      (storeSeq cfg st inputs).memories =
        inputs.foldl
          (fun c i => pruneMems cfg (c ++ [mkMemory cfg i.1 i.2.1 i.2.2]))
          st.memories
  | [], st => rfl
  | i :: is, st => by
      show (storeSeq cfg (store cfg st i.1 i.2.1 i.2.2).2 is).memories = _
      rw [storeSeq_memories cfg is _]
      rw [List.foldl_cons]
      rw [store_memories_eq]

theorem countP_not_eq (l : List Memory) (q : Memory → Bool) :
    l.countP (fun m => !q m) = l.length - l.countP q := by
  have h := List.length_eq_countP_add_countP q l
  have h2 : l.countP (fun a => decide ¬(q a = true)) = l.countP (fun m => !q m) := by
    apply List.countP_congr
    intro x _
    simp
  omega

theorem countP_id_eq_one (L : List Memory) (h : Memory) (hmem : h ∈ L)
    (hnd : (L.map Memory.id).Nodup) :
    L.countP (fun m => decide (m.id = h.id)) = 1 := by
  have hinj := List.inj_on_of_nodup_map hnd
  have hLnd : L.Nodup := List.Nodup.of_map _ hnd
  have hcongr : L.countP (fun m => decide (m.id = h.id)) =
      L.countP (fun m => decide (m = h)) := by
    apply List.countP_congr
    intro x hx
    simp only [decide_eq_true_eq]
    constructor
    · intro hid
      exact hinj hx hmem hid
    · intro he
      rw [he]
  rw [hcongr]
  have hc := List.count_eq_one_of_mem hLnd hmem
  rw [List.count_eq_countP] at hc
  rw [← hc]
  apply List.countP_congr
  intro x _
  simp

theorem retention_step (cfg : PluginConfig) (S C : List Memory) (r : Memory)
    (hsub : C.Sublist S)
    (hlen : C.length = min S.length cfg.maxMemories)
    (hsep : ∀ e ∈ S, e ∉ C → ∀ y ∈ C, strictAbove y e)
    (hids : ((S ++ [r]).map Memory.id).Nodup)
    (htime : (S ++ [r]).Pairwise (fun a b => a.createdAt < b.createdAt)) :
    (pruneMems cfg (C ++ [r])).Sublist (S ++ [r]) ∧
      (pruneMems cfg (C ++ [r])).length = min (S ++ [r]).length cfg.maxMemories ∧
      ∀ e ∈ S ++ [r], e ∉ pruneMems cfg (C ++ [r]) →
        ∀ y ∈ pruneMems cfg (C ++ [r]), strictAbove y e := by
  have hsubr : (C ++ [r]).Sublist (S ++ [r]) := hsub.append (List.Sublist.refl [r])
  have hidsCr : ((C ++ [r]).map Memory.id).Nodup :=
    List.Nodup.sublist (hsubr.map Memory.id) hids
  have htimeCr : (C ++ [r]).Pairwise (fun a b => a.createdAt < b.createdAt) :=
    htime.sublist hsubr
  have htne : ∀ x ∈ C ++ [r], ∀ y ∈ C ++ [r], x ≠ y → x.createdAt ≠ y.createdAt := by
    intro x hx y hy hxy
    exact List.Pairwise.forall (fun a b hne => hne.symm)
      (htimeCr.imp (fun h => ne_of_lt h)) hx hy hxy
  by_cases hov : (C ++ [r]).length > cfg.maxMemories
  · -- the store overflows: exactly one record is evicted
    have hCmax : C.length = cfg.maxMemories := by
      simp only [List.length_append, List.length_cons, List.length_nil] at hov
      omega
    have hlen1 : (C ++ [r]).length = cfg.maxMemories + 1 := by
      simp [hCmax]
    obtain ⟨h0, t0, hsort⟩ :
        ∃ h0 t0, List.insertionSort evictLe (C ++ [r]) = h0 :: t0 := by
      cases hs : List.insertionSort evictLe (C ++ [r]) with
      | nil =>
          have hl := List.length_insertionSort evictLe (C ++ [r])
          rw [hs, hlen1] at hl
          simp at hl
      | cons a as => exact ⟨a, as, rfl⟩
    have hperm : (h0 :: t0).Perm (C ++ [r]) := by
      rw [← hsort]
      exact List.perm_insertionSort _ _
    have hh0mem : h0 ∈ C ++ [r] := hperm.mem_iff.mp (List.mem_cons_self _ _)
    have hmin : ∀ x ∈ t0, evictLe h0 x := by
      have hs := List.sorted_insertionSort evictLe (C ++ [r])
      rw [hsort] at hs
      exact (List.sorted_cons.mp hs).1
    have habove : ∀ x ∈ C ++ [r], x ≠ h0 → strictAbove x h0 := by
      intro x hx hxne
      have hxt : x ∈ t0 := by
        rcases List.mem_cons.mp (hperm.mem_iff.mpr hx) with h | h
        · exact absurd h hxne
        · exact h
      exact evictLe_strictAbove (hmin x hxt) (htne h0 hh0mem x hx (Ne.symm hxne))
    have htod : (C ++ [r]).length - cfg.maxMemories = 1 := by omega
    have hvict : ((List.insertionSort evictLe (C ++ [r])).take
        ((C ++ [r]).length - cfg.maxMemories)).map (fun v => v.id) = [h0.id] := by
      rw [htod, hsort]
      rfl
    have hpm : pruneMems cfg (C ++ [r]) =
        (C ++ [r]).filter (fun m => !(([h0.id] : List String).contains m.id)) := by
      unfold pruneMems
      rw [if_pos hov, hvict]
    have hpred : ∀ m : Memory, (!(([h0.id] : List String).contains m.id)) =
        !(decide (m.id = h0.id)) := by
      intro m
      rw [contains_singleton_eq]
    have hmemC : ∀ m : Memory,
        m ∈ pruneMems cfg (C ++ [r]) ↔ m ∈ C ++ [r] ∧ m ≠ h0 := by
      intro m
      rw [hpm, List.mem_filter]
      constructor
      · rintro ⟨hm, hpf⟩
        refine ⟨hm, ?_⟩
        intro heq
        rw [heq, hpred] at hpf
        simp at hpf
      · rintro ⟨hm, hne⟩
        refine ⟨hm, ?_⟩
        rw [hpred]
        have hid : m.id ≠ h0.id :=
          fun hid => hne (List.inj_on_of_nodup_map hidsCr hm hh0mem hid)
        simp [hid]
    have hlenC : (pruneMems cfg (C ++ [r])).length = cfg.maxMemories := by
      rw [hpm, ← List.countP_eq_length_filter]
      have hcg : (C ++ [r]).countP (fun m => !(([h0.id] : List String).contains m.id)) =
          (C ++ [r]).countP (fun m => !(decide (m.id = h0.id))) := by
        apply List.countP_congr
        intro x _
        rw [hpred]
      rw [hcg, countP_not_eq, countP_id_eq_one (C ++ [r]) h0 hh0mem hidsCr, hlen1]
      omega
    refine ⟨?_, ?_, ?_⟩
    · rw [hpm]
      exact (List.filter_sublist _).trans hsubr
    · rw [hlenC]
      simp only [List.length_append, List.length_cons, List.length_nil]
      omega
    · intro e he hne y hy
      have hyC := (hmemC y).mp hy
      by_cases heh : e = h0
      · subst heh
        exact habove y hyC.1 hyC.2
      · have heCr : e ∉ C ++ [r] := by
          intro hmem
          exact hne ((hmemC e).mpr ⟨hmem, heh⟩)
        have heS : e ∈ S := by
          rcases List.mem_append.mp he with h | h
          · exact h
          · exact absurd (List.mem_append_right C h) heCr
        have heC : e ∉ C := fun h => heCr (List.mem_append_left [r] h)
        rcases List.mem_append.mp hyC.1 with hyCmem | hyr
        · exact hsep e heS heC y hyCmem
        · have hyr2 : y = r := List.mem_singleton.mp hyr
          subst hyr2
          have hh0C : h0 ∈ C := by
            rcases List.mem_append.mp hh0mem with h | h
            · exact h
            · exact absurd (List.mem_singleton.mp h).symm hyC.2
          have h1 : strictAbove h0 e := hsep e heS heC h0 hh0C
          have h2 : evictLe h0 y := by
            apply hmin
            rcases List.mem_cons.mp (hperm.mem_iff.mpr hyC.1) with h | h
            · exact absurd h hyC.2
            · exact h
          have h3 : e.createdAt < y.createdAt :=
            (List.pairwise_append.mp htime).2.2 e heS y (List.mem_cons_self y [])
          unfold strictAbove at h1 ⊢
          unfold evictLe at h2
          rcases h1 with hA | ⟨hB1, hB2⟩
          · rcases h2 with hC1 | ⟨hC2, _⟩
            · exact Or.inl (hA.trans hC1)
            · exact Or.inl (hC2 ▸ hA)
          · rcases h2 with hC1 | ⟨hC2, _⟩
            · exact Or.inl (hB1 ▸ hC1)
            · exact Or.inr ⟨hC2.symm.trans hB1, h3⟩
  · -- no overflow: nothing is pruned
    have hpm : pruneMems cfg (C ++ [r]) = C ++ [r] := by
      unfold pruneMems
      rw [if_neg hov]
    have hov2 : ¬ C.length + 1 > cfg.maxMemories := by
      simpa using hov
    have hSlt : S.length < cfg.maxMemories := by omega
    have hCS : C = S := hsub.eq_of_length (by omega)
    rw [hpm]
    refine ⟨hsubr, ?_, ?_⟩
    · simp only [List.length_append, List.length_cons, List.length_nil]
      omega
    · intro e he hne y hy
      rw [← hCS] at he
      exact absurd he hne

theorem retention_fold (cfg : PluginConfig) :
    ∀ (rs S C : List Memory),
      C.Sublist S → C.length = min S.length cfg.maxMemories →
      (∀ e ∈ S, e ∉ C → ∀ y ∈ C, strictAbove y e) →
      ((S ++ rs).map Memory.id).Nodup →
      (S ++ rs).Pairwise (fun a b => a.createdAt < b.createdAt) →
      (rs.foldl (fun c x => pruneMems cfg (c ++ [x])) C).Sublist (S ++ rs) ∧
        (rs.foldl (fun c x => pruneMems cfg (c ++ [x])) C).length =
          min (S ++ rs).length cfg.maxMemories ∧
        ∀ e ∈ S ++ rs, e ∉ rs.foldl (fun c x => pruneMems cfg (c ++ [x])) C →
          ∀ y ∈ rs.foldl (fun c x => pruneMems cfg (c ++ [x])) C, strictAbove y e
  | [], S, C => by
      intro h1 h2 h3 _ _
      simpa using ⟨h1, h2, h3⟩
  | r :: rs, S, C => by
      intro h1 h2 h3 h4 h5
      have hassoc : S ++ r :: rs = (S ++ [r]) ++ rs := by simp
      have hsubSr : (S ++ [r]).Sublist (S ++ r :: rs) :=
        List.Sublist.append (List.Sublist.refl S) ((List.nil_sublist rs).cons₂ r)
      have h4s : ((S ++ [r]).map Memory.id).Nodup :=
        List.Nodup.sublist (hsubSr.map Memory.id) h4
      have h5s : (S ++ [r]).Pairwise (fun a b => a.createdAt < b.createdAt) :=
        h5.sublist hsubSr
      obtain ⟨s1, s2, s3⟩ := retention_step cfg S C r h1 h2 h3 h4s h5s
      have ih := retention_fold cfg rs (S ++ [r]) (pruneMems cfg (C ++ [r]))
        s1 s2 s3 (by rw [← hassoc]; exact h4) (by rw [← hassoc]; exact h5)
      rw [List.foldl_cons, hassoc]
      exact ih

theorem retention_final (cfg : PluginConfig) (S C : List Memory)
    (hnd : S.Nodup)
    (hmax : cfg.maxMemories ≤ S.length)
    (hsub : C.Sublist S) (hlen : C.length = min S.length cfg.maxMemories)
    (hsep : ∀ e ∈ S, e ∉ C → ∀ y ∈ C, strictAbove y e) :
    C.length = cfg.maxMemories ∧
      ∀ r ∈ S, (r ∈ C ↔
        S.countP (fun x => decide (strictAbove x r)) < cfg.maxMemories) := by
  have hClen : C.length = cfg.maxMemories := by omega
  refine ⟨hClen, ?_⟩
  intro r hr
  constructor
  · intro hrC
    have hsubset : ∀ x ∈ S.filter (fun x => decide (strictAbove x r)),
        x ∈ C.erase r := by
      intro x hx
      obtain ⟨hxS, hxP⟩ := List.mem_filter.mp hx
      have hxA : strictAbove x r := of_decide_eq_true hxP
      have hxC : x ∈ C := by
        by_contra hxC
        exact strictAbove_asymm hxA (hsep x hxS hxC r hrC)
      have hxr : x ≠ r := by
        intro he
        rw [he] at hxA
        exact strictAbove_irrefl r hxA
      exact (List.mem_erase_of_ne hxr).mpr hxC
    have hfnd : (S.filter (fun x => decide (strictAbove x r))).Nodup :=
      List.Nodup.sublist (List.filter_sublist S) hnd
    have hcard : (S.filter (fun x => decide (strictAbove x r))).length ≤
        (C.erase r).length := by
      have h1 := List.toFinset_card_of_nodup hfnd
      have h2 : (S.filter (fun x => decide (strictAbove x r))).toFinset ⊆
          (C.erase r).toFinset := by
        intro x hx
        rw [List.mem_toFinset] at hx ⊢
        exact hsubset x hx
      calc (S.filter (fun x => decide (strictAbove x r))).length
          = (S.filter (fun x => decide (strictAbove x r))).toFinset.card := h1.symm
        _ ≤ (C.erase r).toFinset.card := Finset.card_le_card h2
        _ ≤ (C.erase r).length := List.toFinset_card_le _
    have herase : (C.erase r).length = C.length - 1 :=
      List.length_erase_of_mem hrC
    have hpos : 1 ≤ C.length := List.length_pos_of_mem hrC
    rw [List.countP_eq_length_filter]
    omega
  · intro hcount
    by_contra hrC
    have hall : ∀ y ∈ C, strictAbove y r := hsep r hr hrC
    have hCcount : C.countP (fun x => decide (strictAbove x r)) = C.length :=
      List.countP_eq_length.mpr (fun a ha => by simpa using hall a ha)
    have hle := List.Sublist.countP_le (fun x => decide (strictAbove x r)) hsub
    omega

/-- C3: starting from an empty store, sequentially storing
`maxMemories + N` records with pairwise distinct ids and strictly increasing
timestamps leaves exactly `maxMemories` rows, and a record survives exactly
when fewer than `maxMemories` of the inserted records rank strictly above it
by importance descending, then createdAt descending — i.e. the survivors are
exactly the `maxMemories` highest-ranked records. -/
theorem retention_bound (cfg : PluginConfig)
    (inputs : List (MemoryStoreParams × String × Nat)) (N : Nat)
    (hlen : inputs.length = cfg.maxMemories + N)
    (hids : (inputs.map (fun i => i.2.1)).Nodup)
    (htime : inputs.Pairwise (fun a b => a.2.2 < b.2.2)) :
    (storeSeq cfg emptyDB inputs).memories.length = cfg.maxMemories ∧
      ∀ r ∈ inputs.map (fun i => mkMemory cfg i.1 i.2.1 i.2.2),
        (r ∈ (storeSeq cfg emptyDB inputs).memories ↔
          (inputs.map (fun i => mkMemory cfg i.1 i.2.1 i.2.2)).countP
            (fun x => decide (strictAbove x r)) < cfg.maxMemories) := by
  set recs := inputs.map (fun i => mkMemory cfg i.1 i.2.1 i.2.2) with hrecs
  have hfold : (storeSeq cfg emptyDB inputs).memories =
      recs.foldl (fun c x => pruneMems cfg (c ++ [x])) [] := by
    rw [storeSeq_memories cfg inputs emptyDB, hrecs, List.foldl_map]
    rfl
  have hidsrecs : (recs.map Memory.id).Nodup := by
    rw [hrecs, List.map_map]
    exact hids
  have htimerecs : recs.Pairwise (fun a b => a.createdAt < b.createdAt) := by
    rw [hrecs, List.pairwise_map]
    exact htime.imp (fun h => h)
  obtain ⟨f1, f2, f3⟩ := retention_fold cfg recs [] [] (List.nil_sublist _)
    (by simp) (by simp) (by simpa using hidsrecs) (by simpa using htimerecs)
  rw [List.nil_append] at f1 f2 f3
  have hrlen : recs.length = cfg.maxMemories + N := by
    rw [hrecs, List.length_map, hlen]
  have hnd : recs.Nodup := List.Nodup.of_map _ hidsrecs
  obtain ⟨g1, g2⟩ := retention_final cfg recs _ hnd (by omega) f1 f2 f3
  constructor
  · rw [hfold]
    exact g1
  · intro r hr
    rw [hfold]
    exact g2 r hr

/-- C3 witness: two stores into a one-slot store keep exactly the higher-
importance record. -/
theorem retention_bound_witness :
    (storeSeq ⟨1, 1, [], true⟩ emptyDB
        [(⟨"alpha", none, some 2, none, none⟩, "a", 0),
          (⟨"beta", none, some 3, none, none⟩, "b", 1)]).memories.length = 1 ∧
      ∀ r ∈ [(⟨"alpha", none, some 2, none, none⟩, "a", 0),
          (⟨"beta", none, some 3, none, none⟩, "b", 1)].map
            (fun i => mkMemory ⟨1, 1, [], true⟩ i.1 i.2.1 i.2.2),
        (r ∈ (storeSeq ⟨1, 1, [], true⟩ emptyDB
            [(⟨"alpha", none, some 2, none, none⟩, "a", 0),
              (⟨"beta", none, some 3, none, none⟩, "b", 1)]).memories ↔
          ([(⟨"alpha", none, some 2, none, none⟩, "a", 0),
              (⟨"beta", none, some 3, none, none⟩, "b", 1)].map
                (fun i => mkMemory ⟨1, 1, [], true⟩ i.1 i.2.1 i.2.2)).countP
            (fun x => decide (strictAbove x r)) < 1) :=
  retention_bound ⟨1, 1, [], true⟩
    [(⟨"alpha", none, some 2, none, none⟩, "a", 0),
      (⟨"beta", none, some 3, none, none⟩, "b", 1)] 1
    (by decide) (by decide) (by decide)

end MoltMem
